import Mathlib

/-!
Verification of the customer-management view-model (src/src/views/HomeView.vue and
src/db.ts) against its design specification.

The embedding models:
* the `Customer` record and `CustomerType` enumeration of src/db.ts;
* the search criteria refs and `filteredCustomers` computed of HomeView.vue;
* the `sortedAndFilteredCustomers` computed: the in-place comparison sort is modelled
  by the stable insertion sort `List.insertionSort` keyed on the translated comparator
  (ECMAScript specifies `Array.prototype.sort` as a stable comparator-driven sort; the
  comparator of the source is inconsistent on pairs whose sort field is missing on both
  sides, where every sort order is permitted, and the model fixes one such order);
* the `sortBy` toggle handler, the `addCustomer` / `updateCustomer` handlers, and the
  `importData` handler with its try/catch control flow.

JavaScript `Date` values are modelled by their epoch-millisecond instant (an `Int`);
`localeCompare` is modelled by code-point lexicographic comparison of strings, and
`toLowerCase` by per-character lowering; neither difference affects any claim below.
-/

namespace CustomerApp

/-- The `CustomerType` enumeration of src/db.ts (a closed set of string values). -/
inductive CustomerType where
  | NEW | BUSY | YES | NO | TRIAL | TEST | FULL | NA
deriving DecidableEq

/-- The string value carried by each enumeration member in src/db.ts. -/
def CustomerType.label : CustomerType → String
  | .NEW => "NEW"
  | .BUSY => "BUSY"
  | .YES => "YES"
  | .NO => "NO"
  | .TRIAL => "TRIAL"
  | .TEST => "TEST"
  | .FULL => "FULL"
  | .NA => "NA"

/-- The `Customer` interface of src/db.ts. `id` is optional (assigned by the store);
`lastCall`/`nextCall` are optional `Date` values, modelled by their millisecond instant. -/
structure Customer where
  id : Option Nat
  fullName : String
  phone : String
  note : String
  customSearchField1 : String
  type : CustomerType
  lastCall : Option Int
  nextCall : Option Int
deriving DecidableEq

/-- The per-column search refs of HomeView.vue. The two date inputs hold either the
empty string or one calendar day; they are modelled by `Option Int` (an epoch-day
index), `none` for the empty string. `searchType` is `none` for the empty option. -/
structure SearchCriteria where
  searchId : String
  searchFullName : String
  searchPhone : String
  searchNote : String
  searchCustomField : String
  searchType : Option CustomerType
  searchLastCall : Option Int
  searchNextCall : Option Int

/-- The all-empty criteria: every text filter is the empty string and no type or
date filter is selected. -/
def emptyCriteria : SearchCriteria :=
  { searchId := "", searchFullName := "", searchPhone := "", searchNote := "",
    searchCustomField := "", searchType := none, searchLastCall := none,
    searchNextCall := none }

/-- JavaScript `hay.includes(needle)`: contiguous (case-sensitive) containment. -/
def jsIncludes (hay needle : String) : Bool :=
  decide (needle.data <:+: hay.data)

/-- Per-character lowering, modelling `String.prototype.toLowerCase`. -/
def lowerChars (s : String) : List Char :=
  s.data.map Char.toLower

/-- JavaScript `hay.toLowerCase().includes(needle.toLowerCase())`. -/
def jsIncludesCI (hay needle : String) : Bool :=
  decide (lowerChars needle <:+: lowerChars hay)

/-- JavaScript `String(customer.id ?? '')`: the decimal text of the id, or the empty
string when the id is absent. -/
def idString (c : Customer) : String :=
  match c.id with
  | none => ""
  | some n => toString n

/-- Milliseconds in one day. -/
def msPerDay : Int := 86400000

/-- The calendar-day component of a `Date` instant, as produced by
`toISOString().split('T')[0]` (one value per UTC day). -/
def isoDay (t : Int) : Int := Int.fdiv t msPerDay

/-- The `idMatch` conjunct (line 66): with a non-empty filter, substring containment in
`String(customer.id ?? '')`; with the empty filter, every record passes. -/
def idFilterB (f : String) (c : Customer) : Bool :=
  if f = "" then true else jsIncludes (idString c) f

/-- The `typeMatch` conjunct (line 71): strict equality when a type is selected. -/
def typeFilterB (f : Option CustomerType) (c : Customer) : Bool :=
  match f with
  | none => true
  | some t => decide (c.type = t)

/-- The `lastCallMatch`/`nextCallMatch` conjuncts (lines 73-85): with a date selected,
the record must have the field set and its ISO calendar-day component must equal the
selected day; a record missing the field fails. -/
def dateFilterB (f : Option Int) (field : Option Int) : Bool :=
  match f, field with
  | none, _ => true
  | some _, none => false
  | some d, some t => decide (isoDay t = d)

/-- The filter predicate of the `filteredCustomers` computed (HomeView.vue lines 64-89),
one conjunct per search field, in source order. -/
def matchesCriteria (crit : SearchCriteria) (c : Customer) : Bool :=
  idFilterB crit.searchId c &&
  jsIncludesCI c.fullName crit.searchFullName &&
  jsIncludesCI c.phone crit.searchPhone &&
  jsIncludesCI c.note crit.searchNote &&
  jsIncludesCI c.customSearchField1 crit.searchCustomField &&
  typeFilterB crit.searchType c &&
  dateFilterB crit.searchLastCall c.lastCall &&
  dateFilterB crit.searchNextCall c.nextCall

/-- The `filteredCustomers` computed: `customers.value.filter(...)`. -/
def filteredCustomers (snapshot : List Customer) (crit : SearchCriteria) : List Customer :=
  snapshot.filter (matchesCriteria crit)

/-- The sortable column keys of the table (every `Customer` field has a header). -/
inductive SortKey where
  | id | fullName | phone | note | customSearchField1 | type | lastCall | nextCall
deriving DecidableEq

/-- The `sortOrder` ref: ascending or descending. -/
inductive SortDir where
  | asc | desc
deriving DecidableEq

/-- A JavaScript value read from a customer record by the sort comparator: a number
(ids and date instants) or a string. -/
inductive FieldVal where
  | num (n : Int)
  | str (s : String)
deriving DecidableEq

/-- The instant of a date-valued field (`new Date(val).getTime()`); date columns only
ever hold `num` values, so the `str` arm is unreachable. -/
def FieldVal.toMs : FieldVal → Int
  | .num n => n
  | .str _ => 0

/-- JavaScript `String(val)` on a field value. -/
def jsStr : FieldVal → String
  | .num n => toString n
  | .str s => s

/-- A sign-valued string comparison, modelling `localeCompare`. -/
def strCmp (s t : String) : Int :=
  if s < t then -1 else if s = t then 0 else 1

/-- The field value `customer[key]` read by the sort comparator; `none` models
`null`/`undefined`. -/
def fieldOpt : SortKey → Customer → Option FieldVal
  | .id, c => c.id.map (fun n => FieldVal.num (Int.ofNat n))
  | .fullName, c => some (.str c.fullName)
  | .phone, c => some (.str c.phone)
  | .note, c => some (.str c.note)
  | .customSearchField1, c => some (.str c.customSearchField1)
  | .type, c => some (.str c.type.label)
  | .lastCall, c => c.lastCall.map (fun t => FieldVal.num t)
  | .nextCall, c => c.nextCall.map (fun t => FieldVal.num t)

/-- The value comparison of the comparator (HomeView.vue lines 104-112): date keys
compare by instant difference, two numbers compare by difference, anything else by
`String(...)` text comparison. -/
def valCmp : SortKey → FieldVal → FieldVal → Int
  | .lastCall, va, vb => va.toMs - vb.toMs
  | .nextCall, va, vb => va.toMs - vb.toMs
  | _, .num x, .num y => x - y
  | _, va, vb => strCmp (jsStr va) (jsStr vb)

/-- Whether the column holds number-valued entries (ids and date instants); the other
columns hold strings. -/
def numericKey : SortKey → Bool
  | .id => true
  | .lastCall => true
  | .nextCall => true
  | _ => false

/-- Shape invariant of the values produced by `fieldOpt`: numeric columns produce
`num` values and the remaining columns produce `str` values. -/
def WFVal (k : SortKey) (v : FieldVal) : Prop :=
  match numericKey k, v with
  | true, .num _ => True
  | false, .str _ => True
  | _, _ => False

/-- The full comparator (HomeView.vue lines 95-113): a missing value on the left
compares as 1 (sent towards the end), a missing value on the right as -1, otherwise
the values are compared. -/
def jsCmp (k : SortKey) (a b : Customer) : Int :=
  match fieldOpt k a, fieldOpt k b with
  | none, _ => 1
  | some _, none => -1
  | some va, some vb => valCmp k va vb

/-- The "keep `a` no later than `b`" reading of the comparator, used to drive the
stable sort. -/
def jsLe (k : SortKey) (a b : Customer) : Prop :=
  jsCmp k a b ≤ 0

instance (k : SortKey) : DecidableRel (jsLe k) :=
  fun a b => inferInstanceAs (Decidable (jsCmp k a b ≤ 0))

/-- Whether the chosen sort field is missing (`null`/`undefined`) on a record. -/
def missingOn (k : SortKey) (c : Customer) : Bool :=
  (fieldOpt k c).isNone

/-- The sort stage of the `sortedAndFilteredCustomers` computed (lines 91-121): when a
sort key is selected, sort a copy with the comparator, then reverse the whole result
when the direction is descending; with no key, the filtered order is returned as is. -/
def sortCustomers (F : List Customer) (sk : Option SortKey) (dir : SortDir) : List Customer :=
  match sk with
  | none => F
  | some k =>
    match dir with
    | .asc => List.insertionSort (jsLe k) F
    | .desc => (List.insertionSort (jsLe k) F).reverse

/-- The `sortedAndFilteredCustomers` computed: filter, then sort a fresh copy. -/
def sortedAndFilteredCustomers (snapshot : List Customer) (crit : SearchCriteria)
    (sk : Option SortKey) (dir : SortDir) : List Customer :=
  sortCustomers (filteredCustomers snapshot crit) sk dir

/-- The pair of `sortKey`/`sortOrder` refs acted on by the `sortBy` handler. -/
structure SortState where
  key : Option SortKey
  order : SortDir
deriving DecidableEq

/-- Direction flip used by `sortBy`. -/
def SortDir.toggle : SortDir → SortDir
  | .asc => .desc
  | .desc => .asc

/-- The `sortBy` click handler (lines 148-155): clicking the selected column flips the
direction, clicking another column selects it with ascending direction. -/
def sortBy (k : SortKey) (s : SortState) : SortState :=
  if s.key = some k then { s with order := s.order.toggle }
  else { key := some k, order := SortDir.asc }

/-- The pending new-record value bound to the add form (a `Customer` without id). -/
structure NewCustomer where
  fullName : String
  phone : String
  note : String
  customSearchField1 : String
  type : CustomerType
  lastCall : Option Int
  nextCall : Option Int

/-- The record persisted by `db.customers.add`: the pending fields with the
auto-increment key assigned by the store. -/
def mkCustomer (nid : Nat) (p : NewCustomer) : Customer :=
  { id := some nid, fullName := p.fullName, phone := p.phone, note := p.note,
    customSearchField1 := p.customSearchField1, type := p.type,
    lastCall := p.lastCall, nextCall := p.nextCall }

/-- Result of the add handler: the store contents afterwards, and whether the
validation alert was shown. -/
structure AddOutcome where
  store : List Customer
  notified : Bool
deriving DecidableEq

/-- The `addCustomer` handler (lines 131-146): an empty `fullName` or `phone` (both
falsy exactly on the empty string) alerts and returns before the store call; otherwise
the pending record is appended with a fresh id. -/
def addCustomer (nid : Nat) (p : NewCustomer) (store : List Customer) : AddOutcome :=
  if p.fullName = "" ∨ p.phone = "" then { store := store, notified := true }
  else { store := store ++ [mkCustomer nid p], notified := false }

/-- The `updateCustomer` handler (lines 161-166): with a record under edit, the store
row with the same id is replaced wholesale, with no validation of any field. -/
def updateCustomer (editing : Option Customer) (store : List Customer) : List Customer :=
  match editing with
  | none => store
  | some e => store.map fun c => if c.id = e.id then e else c

/-- A JavaScript value occurring during import: the JSON values, plus the `Date`
objects produced by the reviving map (`jsdate v` is `new Date(v)`). -/
inductive JsValue where
  | null
  | bool (b : Bool)
  | num (n : Int)
  | str (s : String)
  | arr (elems : List JsValue)
  | obj (fields : List (String × JsValue))
  | jsdate (src : JsValue)

/-- JavaScript truthiness of a value (absent fields are handled by `Option` at the
use sites). -/
def truthy : JsValue → Bool
  | .null => false
  | .bool b => b
  | .num n => decide (n ≠ 0)
  | .str s => decide (s ≠ "")
  | .arr _ => true
  | .obj _ => true
  | .jsdate _ => true

/-- The date-reviving spread of importData (lines 197-201) on the fields of one
object: the `lastCall`/`nextCall` entries are replaced by a `Date` when truthy and by
an empty value otherwise (`undefined` is collapsed to `null`; the distinction plays no
part in the import control flow). -/
def reviveFields (fs : List (String × JsValue)) : List (String × JsValue) :=
  fs.map fun kv =>
    if kv.1 = "lastCall" ∨ kv.1 = "nextCall" then
      (kv.1, if truthy kv.2 then JsValue.jsdate kv.2 else JsValue.null)
    else kv

/-- One element of the imported array under the reviving map. Property access on
`null` throws (the `none` result, caught by the surrounding try); spreading any other
non-object value yields an object with no modelled fields (index properties of strings
and arrays are not modelled; they play no part in the import control flow). -/
def reviveElem : JsValue → Option JsValue
  | .null => none
  | .obj fs => some (.obj (reviveFields fs))
  | _ => some (.obj [])

/-- The reviving map over the whole parsed array; the first throwing element aborts. -/
def reviveAll : List JsValue → Option (List JsValue)
  | [] => some []
  | v :: vs =>
    match reviveElem v with
    | none => none
    | some w =>
      match reviveAll vs with
      | none => none
      | some ws => some (w :: ws)

/-- Result of the importData handler: the store contents afterwards, whether the
failure alert was shown, and whether `clear` / `bulkAdd` were invoked. -/
structure ImportResult where
  store : List JsValue
  notified : Bool
  cleared : Bool
  bulkAdded : Bool

/-- The `importData` handler (lines 190-214). `parsed` is the outcome of `JSON.parse`
(`none` when it throws); a parse result that is not an array makes `.map` throw, a
`null` element makes the reviving map throw; every throw is caught by the handler,
which alerts and leaves the store untouched. A successful map asks for confirmation,
then clears the store and bulk-adds the mapped items with no schema validation. -/
def importData (parsed : Option JsValue) (confirmReplace : Bool)
    (store : List JsValue) : ImportResult :=
  match parsed with
  | none => { store := store, notified := true, cleared := false, bulkAdded := false }
  | some (.arr es) =>
    match reviveAll es with
    | none => { store := store, notified := true, cleared := false, bulkAdded := false }
    | some items =>
      if confirmReplace then
        { store := items, notified := false, cleared := true, bulkAdded := true }
      else
        { store := store, notified := false, cleared := false, bulkAdded := false }
  | some _ => { store := store, notified := true, cleared := false, bulkAdded := false }

/-- Specification reading of the id predicate (§4.1): the id filter is empty, or the
decimal text of the id contains the filter text as a contiguous substring. -/
def specIdOk (f : String) (c : Customer) : Prop :=
  f = "" ∨ f.data <:+: (idString c).data

/-- Specification reading of a text predicate (§4.1): the field, case-insensitively,
contains the filter text as a substring (the empty filter text is contained in
anything, the empty field included). -/
def specTextOk (f : String) (s : String) : Prop :=
  lowerChars f <:+: lowerChars s

/-- Specification reading of the type predicate (§4.1): whenever a type filter is
selected, the type of the record equals it exactly. -/
def specTypeOk (f : Option CustomerType) (c : Customer) : Prop :=
  ∀ t, f = some t → c.type = t

/-- Specification reading of a date predicate (§4.1): whenever a date filter is
selected, the record has the field set and its calendar-day component equals the
selected day exactly; a record missing the field fails a non-empty date filter. -/
def specDateOk (f : Option Int) (field : Option Int) : Prop :=
  ∀ d, f = some d → ∃ ms, field = some ms ∧ isoDay ms = d

/-- Conjunction of all active predicates of the search criteria, as §4.1 words them. -/
def specMatches (crit : SearchCriteria) (c : Customer) : Prop :=
  specIdOk crit.searchId c ∧
  specTextOk crit.searchFullName c.fullName ∧
  specTextOk crit.searchPhone c.phone ∧
  specTextOk crit.searchNote c.note ∧
  specTextOk crit.searchCustomField c.customSearchField1 ∧
  specTypeOk crit.searchType c ∧
  specDateOk crit.searchLastCall c.lastCall ∧
  specDateOk crit.searchNextCall c.nextCall

/-- A pending new record with an empty full name (and a non-empty phone). -/
def pEmpty : NewCustomer :=
  { fullName := "", phone := "5", note := "", customSearchField1 := "",
    type := .NEW, lastCall := none, nextCall := none }

/-- A pending new record with both mandatory fields non-empty. -/
def pGood : NewCustomer :=
  { fullName := "Ann", phone := "5", note := "", customSearchField1 := "",
    type := .NEW, lastCall := none, nextCall := none }

/-- An edited record with id 1 whose mandatory fields have been emptied. -/
def eEmpty : Customer :=
  { id := some 1, fullName := "", phone := "", note := "", customSearchField1 := "",
    type := .NEW, lastCall := none, nextCall := none }

/-- A record whose last call is 2024-01-05 (UTC instant 1704412800000). -/
def cJan : Customer :=
  { id := some 1, fullName := "Ann", phone := "1", note := "", customSearchField1 := "",
    type := .NEW, lastCall := some 1704412800000, nextCall := none }

/-- A record with no last call on file. -/
def cMiss : Customer :=
  { id := some 2, fullName := "Bob", phone := "2", note := "", customSearchField1 := "",
    type := .TRIAL, lastCall := none, nextCall := none }

/-- A record whose last call is 2023-06-01 (UTC instant 1685577600000). -/
def cJun : Customer :=
  { id := some 3, fullName := "Cy", phone := "3", note := "", customSearchField1 := "",
    type := .YES, lastCall := some 1685577600000, nextCall := none }

/-- First of two records with the same last-call instant. -/
def cTie1 : Customer :=
  { id := some 4, fullName := "Dee", phone := "4", note := "", customSearchField1 := "",
    type := .NEW, lastCall := some 100, nextCall := none }

/-- Second of two records with the same last-call instant. -/
def cTie2 : Customer :=
  { id := some 5, fullName := "Eve", phone := "5", note := "", customSearchField1 := "",
    type := .NEW, lastCall := some 100, nextCall := none }

/-- The comparator relation padded with "both sides missing": unlike `r` itself, this
relation is a total preorder, and the stable sort driven by `r` orders any list by it. -/
def nullPadded {α : Type} (r : α → α → Prop) (miss : α → Bool) (a b : α) : Prop :=
  r a b ∨ (miss a = true ∧ miss b = true)

section OrderFacts

variable {α : Type} {r : α → α → Prop} {miss : α → Bool}

theorem nullPadded_of_not_rel
    (hm2 : ∀ a b, miss a = false → miss b = true → r a b)
    (hto : ∀ a b, miss a = false → miss b = false → r a b ∨ r b a)
    {a b : α} (h : ¬ r a b) : nullPadded r miss b a := by
  cases hma : miss a
  · cases hmb : miss b
    · exact Or.inl ((hto a b hma hmb).resolve_left h)
    · exact absurd (hm2 a b hma hmb) h
  · cases hmb : miss b
    · exact Or.inl (hm2 b a hmb hma)
    · exact Or.inr ⟨hmb, hma⟩

theorem nullPadded_trans
    (hm1 : ∀ a b, miss a = true → ¬ r a b)
    (hm2 : ∀ a b, miss a = false → miss b = true → r a b)
    (htr : ∀ a b c, r a b → r b c → r a c)
    {a b c : α} (h1 : nullPadded r miss a b) (h2 : nullPadded r miss b c) :
    nullPadded r miss a c := by
  rcases h1 with hab | ⟨hma, hmb⟩
  · rcases h2 with hbc | ⟨hmb2, hmc⟩
    · exact Or.inl (htr a b c hab hbc)
    · cases hma : miss a
      · exact Or.inl (hm2 a c hma hmc)
      · exact Or.inr ⟨hma, hmc⟩
  · rcases h2 with hbc | ⟨hmb2, hmc⟩
    · exact absurd hbc (hm1 b c hmb)
    · exact Or.inr ⟨hma, hmc⟩

theorem pairwise_nullPadded_orderedInsert [DecidableRel r]
    (hm1 : ∀ a b, miss a = true → ¬ r a b)
    (hm2 : ∀ a b, miss a = false → miss b = true → r a b)
    (htr : ∀ a b c, r a b → r b c → r a c)
    (hto : ∀ a b, miss a = false → miss b = false → r a b ∨ r b a)
    (a : α) (L : List α) (hL : L.Pairwise (nullPadded r miss)) :
    (L.orderedInsert r a).Pairwise (nullPadded r miss) := by
  induction L with
  | nil => simp [nullPadded]
  | cons b L ih =>
    rw [List.pairwise_cons] at hL
    rw [List.orderedInsert]
    split_ifs with hr
    · refine List.pairwise_cons.mpr ⟨?_, List.pairwise_cons.mpr hL⟩
      intro c hc
      rcases List.mem_cons.mp hc with rfl | hcL
      · exact Or.inl hr
      · exact nullPadded_trans hm1 hm2 htr (Or.inl hr) (hL.1 c hcL)
    · refine List.pairwise_cons.mpr ⟨?_, ih hL.2⟩
      intro c hc
      rcases (List.mem_orderedInsert r).mp hc with rfl | hcL
      · exact nullPadded_of_not_rel hm2 hto hr
      · exact hL.1 c hcL

theorem pairwise_nullPadded_insertionSort [DecidableRel r]
    (hm1 : ∀ a b, miss a = true → ¬ r a b)
    (hm2 : ∀ a b, miss a = false → miss b = true → r a b)
    (htr : ∀ a b c, r a b → r b c → r a c)
    (hto : ∀ a b, miss a = false → miss b = false → r a b ∨ r b a)
    (l : List α) : (l.insertionSort r).Pairwise (nullPadded r miss) := by
  induction l with
  | nil => simp
  | cons a l ih =>
    simp only [List.insertionSort]
    exact pairwise_nullPadded_orderedInsert hm1 hm2 htr hto a _ ih

theorem pairwise_of_nullPadded_of_countP (l : List α) :
    l.Pairwise (nullPadded r miss) → l.countP miss ≤ 1 → l.Pairwise r := by
  induction l with
  | nil => intro _ _; exact List.Pairwise.nil
  | cons a t ih =>
    intro hp h1
    rw [List.pairwise_cons] at hp
    have ht : t.countP miss ≤ 1 :=
      le_trans (by rw [List.countP_cons]; exact Nat.le_add_right _ _) h1
    refine List.pairwise_cons.mpr ⟨?_, ih hp.2 ht⟩
    intro b hb
    rcases hp.1 b hb with hr | ⟨hma, hmb⟩
    · exact hr
    · exfalso
      have hpos : 0 < t.countP miss := List.countP_pos_iff.mpr ⟨b, hb, hmb⟩
      have hc1 : (a :: t).countP miss = t.countP miss + 1 :=
        List.countP_cons_of_pos _ _ hma
      omega

end OrderFacts

theorem strCmp_le_iff (s t : String) : strCmp s t ≤ 0 ↔ s ≤ t := by
  unfold strCmp
  split_ifs with h1 h2
  · exact iff_of_true (by decide) (le_of_lt h1)
  · exact iff_of_true (by decide) (le_of_eq h2)
  · have hts : t < s := lt_of_le_of_ne (not_lt.mp h1) (fun he => h2 he.symm)
    exact iff_of_false (by decide) (not_le.mpr hts)

theorem valCmp_num (k : SortKey) (x y : Int) : valCmp k (.num x) (.num y) = x - y := by
  cases k <;> rfl

theorem valCmp_str (k : SortKey) (s t : String) (hk : numericKey k = false) :
    valCmp k (.str s) (.str t) = strCmp s t := by
  cases k <;> first | rfl | simp [numericKey] at hk

theorem wf_num {k : SortKey} {v : FieldVal} (hk : numericKey k = true) (h : WFVal k v) :
    ∃ n, v = FieldVal.num n := by
  unfold WFVal at h
  rw [hk] at h
  rcases v with n | s
  · exact ⟨n, rfl⟩
  · exact False.elim h

theorem wf_str {k : SortKey} {v : FieldVal} (hk : numericKey k = false) (h : WFVal k v) :
    ∃ s, v = FieldVal.str s := by
  unfold WFVal at h
  rw [hk] at h
  rcases v with n | s
  · exact False.elim h
  · exact ⟨s, rfl⟩

theorem fieldOpt_wf : ∀ {k : SortKey} {c : Customer} {v : FieldVal},
    fieldOpt k c = some v → WFVal k v := by
  intro k c v h
  cases k
  case id =>
    simp only [fieldOpt] at h
    cases hid : c.id with
    | none => rw [hid] at h; simp at h
    | some n =>
      rw [hid] at h
      simp only [Option.map_some'] at h
      injection h with h2
      subst h2
      trivial
  case fullName =>
    simp only [fieldOpt] at h
    injection h with h2
    subst h2
    trivial
  case phone =>
    simp only [fieldOpt] at h
    injection h with h2
    subst h2
    trivial
  case note =>
    simp only [fieldOpt] at h
    injection h with h2
    subst h2
    trivial
  case customSearchField1 =>
    simp only [fieldOpt] at h
    injection h with h2
    subst h2
    trivial
  case type =>
    simp only [fieldOpt] at h
    injection h with h2
    subst h2
    trivial
  case lastCall =>
    simp only [fieldOpt] at h
    cases hlc : c.lastCall with
    | none => rw [hlc] at h; simp at h
    | some t =>
      rw [hlc] at h
      simp only [Option.map_some'] at h
      injection h with h2
      subst h2
      trivial
  case nextCall =>
    simp only [fieldOpt] at h
    cases hnc : c.nextCall with
    | none => rw [hnc] at h; simp at h
    | some t =>
      rw [hnc] at h
      simp only [Option.map_some'] at h
      injection h with h2
      subst h2
      trivial

theorem valCmp_le_trans {k : SortKey} {va vb vc : FieldVal}
    (ha : WFVal k va) (hb : WFVal k vb) (hc : WFVal k vc)
    (h1 : valCmp k va vb ≤ 0) (h2 : valCmp k vb vc ≤ 0) : valCmp k va vc ≤ 0 := by
  cases hnk : numericKey k
  · obtain ⟨s, rfl⟩ := wf_str hnk ha
    obtain ⟨t, rfl⟩ := wf_str hnk hb
    obtain ⟨u, rfl⟩ := wf_str hnk hc
    rw [valCmp_str k s t hnk] at h1
    rw [valCmp_str k t u hnk] at h2
    rw [valCmp_str k s u hnk]
    rw [strCmp_le_iff] at h1 h2 ⊢
    exact le_trans h1 h2
  · obtain ⟨x, rfl⟩ := wf_num hnk ha
    obtain ⟨y, rfl⟩ := wf_num hnk hb
    obtain ⟨z, rfl⟩ := wf_num hnk hc
    rw [valCmp_num] at h1 h2 ⊢
    omega

theorem valCmp_le_total {k : SortKey} {va vb : FieldVal}
    (ha : WFVal k va) (hb : WFVal k vb) :
    valCmp k va vb ≤ 0 ∨ valCmp k vb va ≤ 0 := by
  cases hnk : numericKey k
  · obtain ⟨s, rfl⟩ := wf_str hnk ha
    obtain ⟨t, rfl⟩ := wf_str hnk hb
    rw [valCmp_str k s t hnk, valCmp_str k t s hnk, strCmp_le_iff, strCmp_le_iff]
    exact le_total s t
  · obtain ⟨x, rfl⟩ := wf_num hnk ha
    obtain ⟨y, rfl⟩ := wf_num hnk hb
    rw [valCmp_num, valCmp_num]
    omega

theorem jsLe_miss_left {k : SortKey} {a b : Customer} (h : missingOn k a = true) :
    ¬ jsLe k a b := by
  unfold missingOn at h
  have hfa : fieldOpt k a = none := Option.isNone_iff_eq_none.mp h
  unfold jsLe jsCmp
  rw [hfa]
  intro hle
  exact absurd (show (1 : Int) ≤ 0 from hle) (by decide)

theorem jsLe_present_missing {k : SortKey} {a b : Customer}
    (ha : missingOn k a = false) (hb : missingOn k b = true) : jsLe k a b := by
  unfold missingOn at ha hb
  have hfb : fieldOpt k b = none := Option.isNone_iff_eq_none.mp hb
  unfold jsLe jsCmp
  rw [hfb]
  cases hfa : fieldOpt k a with
  | none => rw [hfa] at ha; simp at ha
  | some va =>
    exact show (-1 : Int) ≤ 0 by decide

theorem jsLe_trans {k : SortKey} {a b c : Customer}
    (h1 : jsLe k a b) (h2 : jsLe k b c) : jsLe k a c := by
  unfold jsLe jsCmp at h1 h2 ⊢
  cases hfa : fieldOpt k a with
  | none =>
    rw [hfa] at h1
    exact absurd (show (1 : Int) ≤ 0 from h1) (by decide)
  | some va =>
    cases hfc : fieldOpt k c with
    | none =>
      exact show (-1 : Int) ≤ 0 by decide
    | some vc =>
      cases hfb : fieldOpt k b with
      | none =>
        rw [hfb] at h2
        exact absurd (show (1 : Int) ≤ 0 from h2) (by decide)
      | some vb =>
        rw [hfa, hfb] at h1
        rw [hfb, hfc] at h2
        exact valCmp_le_trans (fieldOpt_wf hfa) (fieldOpt_wf hfb) (fieldOpt_wf hfc) h1 h2

theorem jsLe_total_present {k : SortKey} {a b : Customer}
    (ha : missingOn k a = false) (hb : missingOn k b = false) :
    jsLe k a b ∨ jsLe k b a := by
  unfold missingOn at ha hb
  cases hfa : fieldOpt k a with
  | none => rw [hfa] at ha; simp at ha
  | some va =>
    cases hfb : fieldOpt k b with
    | none => rw [hfb] at hb; simp at hb
    | some vb =>
      unfold jsLe jsCmp
      rw [hfa, hfb]
      exact valCmp_le_total (fieldOpt_wf hfa) (fieldOpt_wf hfb)

theorem idOk_iff (f : String) (c : Customer) :
    idFilterB f c = true ↔ specIdOk f c := by
  unfold idFilterB specIdOk jsIncludes
  split_ifs with h
  · simp [h]
  · simp [h]

theorem textOk_iff (f s : String) : jsIncludesCI s f = true ↔ specTextOk f s := by
  unfold jsIncludesCI specTextOk
  simp

theorem typeOk_iff (f : Option CustomerType) (c : Customer) :
    typeFilterB f c = true ↔ specTypeOk f c := by
  unfold typeFilterB specTypeOk
  cases f with
  | none => simp
  | some t => simp

theorem dateOk_iff (f g : Option Int) :
    dateFilterB f g = true ↔ specDateOk f g := by
  unfold dateFilterB specDateOk
  cases f with
  | none => simp
  | some d =>
    cases g with
    | none => simp
    | some t => simp [eq_comm]

theorem matchesCriteria_iff (C : SearchCriteria) (c : Customer) :
    matchesCriteria C c = true ↔ specMatches C c := by
  unfold matchesCriteria specMatches
  simp only [Bool.and_eq_true]
  constructor
  · rintro ⟨⟨⟨⟨⟨⟨⟨h1, h2⟩, h3⟩, h4⟩, h5⟩, h6⟩, h7⟩, h8⟩
    exact ⟨(idOk_iff _ c).mp h1, (textOk_iff _ _).mp h2, (textOk_iff _ _).mp h3,
      (textOk_iff _ _).mp h4, (textOk_iff _ _).mp h5, (typeOk_iff _ c).mp h6,
      (dateOk_iff _ _).mp h7, (dateOk_iff _ _).mp h8⟩
  · rintro ⟨h1, h2, h3, h4, h5, h6, h7, h8⟩
    exact ⟨⟨⟨⟨⟨⟨⟨(idOk_iff _ c).mpr h1, (textOk_iff _ _).mpr h2⟩, (textOk_iff _ _).mpr h3⟩,
      (textOk_iff _ _).mpr h4⟩, (textOk_iff _ _).mpr h5⟩, (typeOk_iff _ c).mpr h6⟩,
      (dateOk_iff _ _).mpr h7⟩, (dateOk_iff _ _).mpr h8⟩

theorem pairwise_nullPadded_sort (k : SortKey) (F : List Customer) :
    (F.insertionSort (jsLe k)).Pairwise (nullPadded (jsLe k) (missingOn k)) :=
  @pairwise_nullPadded_insertionSort Customer (jsLe k) (missingOn k) _
    (fun _ _ h => jsLe_miss_left h)
    (fun _ _ ha hb => jsLe_present_missing ha hb)
    (fun _ _ _ h1 h2 => jsLe_trans h1 h2)
    (fun _ _ ha hb => jsLe_total_present ha hb)
    F

/-- C1: for every snapshot and criteria assignment, the filter returns exactly the
records of the snapshot that satisfy every active predicate — id decimal-text substring
(case-sensitive), case-insensitive substring on fullName/phone/note/customSearchField1,
exact type equality when selected, exact calendar-day equality on lastCall/nextCall
with a missing field failing a non-empty date filter — in their original relative
order from the snapshot. -/
theorem filteredCustomers_spec (S : List Customer) (C : SearchCriteria) :
    (filteredCustomers S C).Sublist S ∧
    ∀ c, c ∈ filteredCustomers S C ↔ c ∈ S ∧ specMatches C c := by
  constructor
  · exact List.filter_sublist S
  · intro c
    rw [filteredCustomers, List.mem_filter, matchesCriteria_iff]

/-- C9: with every search criterion empty, the filter returns the snapshot itself —
every record passes, in store order, an empty substring filter being contained in any
field value, the empty string included. -/
theorem filteredCustomers_empty_criteria (S : List Customer) :
    filteredCustomers S emptyCriteria = S := by
  unfold filteredCustomers
  rw [List.filter_eq_self]
  intro c _
  rw [matchesCriteria_iff]
  exact ⟨Or.inl rfl, ⟨[], lowerChars c.fullName, rfl⟩, ⟨[], lowerChars c.phone, rfl⟩,
    ⟨[], lowerChars c.note, rfl⟩, ⟨[], lowerChars c.customSearchField1, rfl⟩,
    fun t h => Option.noConfusion h, fun d h => Option.noConfusion h,
    fun d h => Option.noConfusion h⟩

/-- C2 (counterexample): under a descending request the record missing `lastCall` is
placed first, before the record that has it, so "missing sorts after present in both
directions" fails as stated. -/
theorem sort_desc_missing_first_cex :
    ¬ ((sortCustomers [cJan, cMiss] (some SortKey.lastCall) SortDir.desc).Pairwise
        (fun x y => missingOn SortKey.lastCall x = true → missingOn SortKey.lastCall y = true)) := by
  decide

/-- C2 (amended): under an ascending request every record missing the chosen field
sorts after every record having it; the descending output is the full reversal, so
there every missing record sorts before every present one. -/
theorem sort_missing_placement (F : List Customer) (k : SortKey) :
    ((sortCustomers F (some k) SortDir.asc).Pairwise
        (fun x y => missingOn k x = true → missingOn k y = true)) ∧
    ((sortCustomers F (some k) SortDir.desc).Pairwise
        (fun x y => missingOn k y = true → missingOn k x = true)) := by
  have hasc : (F.insertionSort (jsLe k)).Pairwise
      (fun x y => missingOn k x = true → missingOn k y = true) := by
    refine (pairwise_nullPadded_sort k F).imp ?_
    intro a b hab hma
    rcases hab with hr | ⟨h1, h2⟩
    · exact absurd hr (jsLe_miss_left hma)
    · exact h2
  constructor
  · exact hasc
  · exact List.pairwise_reverse.mpr hasc

/-- C3: the descending result is the full reversal of the ascending result, and on the
spec scenario (last calls 2024-01-05, missing, 2023-06-01) the ascending order is
[2023-06-01, 2024-01-05, missing] and the descending order is
[missing, 2024-01-05, 2023-06-01]. -/
theorem sort_desc_eq_reverse_asc :
    (∀ (F : List Customer) (k : SortKey),
        sortCustomers F (some k) SortDir.desc = (sortCustomers F (some k) SortDir.asc).reverse) ∧
    sortCustomers [cJan, cMiss, cJun] (some SortKey.lastCall) SortDir.asc =
        [cJun, cJan, cMiss] ∧
    sortCustomers [cJan, cMiss, cJun] (some SortKey.lastCall) SortDir.desc =
        [cMiss, cJan, cJun] :=
  ⟨fun _ _ => rfl, by decide, by decide⟩

/-- C4 (counterexample): two records tied on `lastCall` come out in reversed order
under a descending request, so "ties keep their relative order" fails as stated for
the descending directive. -/
theorem sort_desc_tie_swap_cex :
    jsCmp SortKey.lastCall cTie1 cTie2 = 0 ∧
    cTie1 ≠ cTie2 ∧
    sortCustomers [cTie1, cTie2] (some SortKey.lastCall) SortDir.desc = [cTie2, cTie1] :=
  ⟨by decide, by decide, by decide⟩

/-- C4 (amended): the sort is a pure function, and under an ascending request any pair
in comparator order — in particular two records tied on a present field value — keeps
its relative order from the filtered input; the descending output being the exact
reversal, tied pairs appear there in reversed order, and two records both lacking the
field (where the comparator orders each after the other) carry no order guarantee. -/
theorem sort_asc_stable (F : List Customer) (k : SortKey) {x y : Customer}
    (hxy : [x, y].Sublist F) (hle : jsLe k x y) :
    [x, y].Sublist (sortCustomers F (some k) SortDir.asc) :=
  List.pair_sublist_insertionSort hle hxy

theorem sort_asc_stable_w :
    [cTie1, cTie2].Sublist (sortCustomers [cTie1, cTie2] (some SortKey.lastCall) SortDir.asc) :=
  sort_asc_stable [cTie1, cTie2] SortKey.lastCall (List.Sublist.refl _) (by decide)

/-- C5 (counterexample): sorting twice by `lastCall` descending over two tied records
differs from sorting once — the trailing reversal swaps the tied pair on every
application — so idempotence fails as stated. -/
theorem sort_desc_not_idempotent_cex :
    sortCustomers (sortCustomers [cTie1, cTie2] (some SortKey.lastCall) SortDir.desc)
        (some SortKey.lastCall) SortDir.desc ≠
      sortCustomers [cTie1, cTie2] (some SortKey.lastCall) SortDir.desc := by
  decide

/-- C5 (amended): sorting is idempotent for the ascending direction whenever at most
one record of the input lacks the chosen field (the comparator is inconsistent on
pairs of missing records and reorders them on each pass; the descending direction
re-reverses tied records on each pass). -/
theorem sort_asc_idempotent (F : List Customer) (k : SortKey)
    (h : F.countP (missingOn k) ≤ 1) :
    sortCustomers (sortCustomers F (some k) SortDir.asc) (some k) SortDir.asc =
      sortCustomers F (some k) SortDir.asc := by
  have hnp := pairwise_nullPadded_sort k F
  have hcount : (F.insertionSort (jsLe k)).countP (missingOn k) ≤ 1 := by
    rw [(List.perm_insertionSort (jsLe k) F).countP_eq]
    exact h
  have hs : (F.insertionSort (jsLe k)).Pairwise (jsLe k) :=
    pairwise_of_nullPadded_of_countP _ hnp hcount
  exact List.Sorted.insertionSort_eq hs

theorem sort_asc_idempotent_w :
    sortCustomers (sortCustomers [cTie1, cTie2] (some SortKey.lastCall) SortDir.asc)
        (some SortKey.lastCall) SortDir.asc =
      sortCustomers [cTie1, cTie2] (some SortKey.lastCall) SortDir.asc :=
  sort_asc_idempotent [cTie1, cTie2] SortKey.lastCall (by decide)

/-- C10: for every snapshot, criteria, and sort directive, the displayed sequence is a
permutation of the filtered sequence — same records, same multiplicities, none added,
dropped or modified (the sort operates on a fresh copy; in this functional model no
mutation of the filtered sequence or snapshot is possible). -/
theorem sortedAndFilteredCustomers_perm (snapshot : List Customer) (crit : SearchCriteria)
    (sk : Option SortKey) (dir : SortDir) :
    (sortedAndFilteredCustomers snapshot crit sk dir).Perm (filteredCustomers snapshot crit) := by
  unfold sortedAndFilteredCustomers sortCustomers
  cases sk with
  | none => exact List.Perm.refl _
  | some k =>
    cases dir with
    | asc => exact List.perm_insertionSort _ _
    | desc => exact (List.reverse_perm _).trans (List.perm_insertionSort _ _)

/-- C6 (counterexample): from the state with no column selected and ascending
direction, invoking sortBy twice on the same field leaves the direction descending,
not the direction held before the first invocation. -/
theorem sortBy_double_toggle_cex :
    (sortBy SortKey.id (sortBy SortKey.id { key := none, order := SortDir.asc })).order ≠
      ({ key := none, order := SortDir.asc } : SortState).order := by
  decide

/-- C6 (amended): selecting the currently selected field flips the direction (twice
restores the full prior state, and from an ascending selection two toggles leave the
displayed order identical to the initial ascending sort); selecting a different field
sets it with ascending direction, so there two invocations end descending regardless
of the prior direction. -/
theorem sortBy_spec (s : SortState) (k : SortKey) :
    (s.key = some k →
        sortBy k s = { key := s.key, order := s.order.toggle } ∧
        sortBy k (sortBy k s) = s) ∧
    (s.key ≠ some k → sortBy k s = { key := some k, order := SortDir.asc }) ∧
    (s = { key := some k, order := SortDir.asc } →
        ∀ (F : List Customer),
          sortCustomers F (sortBy k (sortBy k s)).key (sortBy k (sortBy k s)).order =
            sortCustomers F s.key s.order) := by
  obtain ⟨sk, so⟩ := s
  refine ⟨?_, ?_, ?_⟩
  · intro h
    dsimp only at h
    subst h
    cases so <;> simp [sortBy, SortDir.toggle]
  · intro h
    dsimp only at h
    simp [sortBy, h]
  · intro h F
    injection h with h1 h2
    subst h1
    subst h2
    simp [sortBy, SortDir.toggle]

theorem sortBy_spec_w :
    sortBy SortKey.fullName (sortBy SortKey.fullName ⟨some SortKey.fullName, SortDir.desc⟩) =
        ⟨some SortKey.fullName, SortDir.desc⟩ ∧
    sortBy SortKey.phone ⟨some SortKey.fullName, SortDir.desc⟩ =
        ⟨some SortKey.phone, SortDir.asc⟩ :=
  ⟨((sortBy_spec ⟨some SortKey.fullName, SortDir.desc⟩ SortKey.fullName).1 rfl).2,
    (sortBy_spec ⟨some SortKey.fullName, SortDir.desc⟩ SortKey.phone).2.1 (by decide)⟩

/-- C7: adding with an empty fullName or phone is rejected before any store call — the
user is alerted, the store is unchanged and no partial record exists — so every record
the add path accepts has non-empty fullName and phone, while the update path commits
the edited record without re-validating either field. -/
theorem addCustomer_spec (nid : Nat) (p : NewCustomer) (store : List Customer) :
    ((p.fullName = "" ∨ p.phone = "") →
        addCustomer nid p store = { store := store, notified := true }) ∧
    ((addCustomer nid p store).notified = false →
        p.fullName ≠ "" ∧ p.phone ≠ "" ∧
        (addCustomer nid p store).store = store ++ [mkCustomer nid p]) ∧
    (∀ c ∈ (addCustomer nid p store).store, c ∈ store ∨ (c.fullName ≠ "" ∧ c.phone ≠ "")) ∧
    (∀ e c, c ∈ store → c.id = e.id → e ∈ updateCustomer (some e) store) := by
  refine ⟨?_, ?_, ?_, ?_⟩
  · intro h
    unfold addCustomer
    rw [if_pos h]
  · intro h
    by_cases hv : p.fullName = "" ∨ p.phone = ""
    · unfold addCustomer at h
      rw [if_pos hv] at h
      simp at h
    · have hv2 := hv
      push_neg at hv2
      refine ⟨hv2.1, hv2.2, ?_⟩
      unfold addCustomer
      rw [if_neg hv]
  · intro c hc
    by_cases hv : p.fullName = "" ∨ p.phone = ""
    · unfold addCustomer at hc
      rw [if_pos hv] at hc
      exact Or.inl hc
    · unfold addCustomer at hc
      rw [if_neg hv] at hc
      rcases List.mem_append.mp hc with h1 | h2
      · exact Or.inl h1
      · have hc2 : c = mkCustomer nid p := by simpa using h2
        subst hc2
        have hv2 := hv
        push_neg at hv2
        exact Or.inr ⟨hv2.1, hv2.2⟩
  · intro e c hcs hid
    unfold updateCustomer
    exact List.mem_map.mpr ⟨c, hcs, by rw [if_pos hid]⟩

theorem addCustomer_spec_w :
    addCustomer 1 pEmpty [] = { store := [], notified := true } ∧
    (addCustomer 1 pGood []).store = [] ++ [mkCustomer 1 pGood] ∧
    eEmpty ∈ updateCustomer (some eEmpty) [cJan] :=
  ⟨(addCustomer_spec 1 pEmpty []).1 (Or.inl rfl),
    ((addCustomer_spec 1 pGood []).2.1 (by decide)).2.2,
    (addCustomer_spec 1 pGood [cJan]).2.2.2 eEmpty cJan (List.mem_cons_self cJan [])
      (by decide)⟩

/-- C8 (counterexample): the JSON text "[5]" parses to an array whose content does
not match the Customer schema, yet the import proceeds: the store is cleared and
bulk-added with the mapped garbage, no abort and no notification. -/
theorem importData_schema_cex :
    (importData (some (JsValue.arr [JsValue.num 5])) true []).cleared = true ∧
    (importData (some (JsValue.arr [JsValue.num 5])) true []).bulkAdded = true ∧
    (importData (some (JsValue.arr [JsValue.num 5])) true []).notified = false ∧
    (importData (some (JsValue.arr [JsValue.num 5])) true []).store = [JsValue.obj []] :=
  ⟨rfl, rfl, rfl, rfl⟩

/-- C8 (amended): malformed JSON — and any input on which parsing or the date-reviving
map throws, such as a non-array parse result or a null element — aborts the import
before any store mutation, with the store untouched and the user notified; the store
is cleared and bulk-added only after a successful parse, a successful reviving map and
an explicit confirmation, with no schema validation of the parsed content. -/
theorem importData_spec (parsed : Option JsValue) (confirmReplace : Bool)
    (store : List JsValue) :
    (parsed = none →
        importData parsed confirmReplace store =
          { store := store, notified := true, cleared := false, bulkAdded := false }) ∧
    ((importData parsed confirmReplace store).notified = true →
        (importData parsed confirmReplace store).store = store ∧
        (importData parsed confirmReplace store).cleared = false ∧
        (importData parsed confirmReplace store).bulkAdded = false) ∧
    ((importData parsed confirmReplace store).cleared = true →
        ∃ es items, parsed = some (JsValue.arr es) ∧ reviveAll es = some items ∧
          confirmReplace = true ∧ (importData parsed confirmReplace store).store = items) := by
  refine ⟨?_, ?_, ?_⟩
  · intro h
    subst h
    rfl
  · rcases parsed with _ | (_ | b | n | s | es | fs | src)
    · exact fun _ => ⟨rfl, rfl, rfl⟩
    · exact fun _ => ⟨rfl, rfl, rfl⟩
    · exact fun _ => ⟨rfl, rfl, rfl⟩
    · exact fun _ => ⟨rfl, rfl, rfl⟩
    · exact fun _ => ⟨rfl, rfl, rfl⟩
    · cases hr : reviveAll es with
      | none => intro _; simp [importData, hr]
      | some items =>
        cases confirmReplace
        · intro _; simp [importData, hr]
        · intro h
          exfalso
          simp [importData, hr] at h
    · exact fun _ => ⟨rfl, rfl, rfl⟩
    · exact fun _ => ⟨rfl, rfl, rfl⟩
  · rcases parsed with _ | (_ | b | n | s | es | fs | src)
    · intro h; exact Bool.noConfusion h
    · intro h; exact Bool.noConfusion h
    · intro h; exact Bool.noConfusion h
    · intro h; exact Bool.noConfusion h
    · intro h; exact Bool.noConfusion h
    · cases hr : reviveAll es with
      | none =>
        intro h
        exfalso
        simp [importData, hr] at h
      | some items =>
        cases confirmReplace
        · intro h
          exfalso
          simp [importData, hr] at h
        · intro _
          refine ⟨es, items, rfl, hr, rfl, ?_⟩
          simp [importData, hr]
    · intro h; exact Bool.noConfusion h
    · intro h; exact Bool.noConfusion h

theorem importData_spec_w :
    importData none true [JsValue.num 7] =
        { store := [JsValue.num 7], notified := true, cleared := false, bulkAdded := false } ∧
    (importData (some (JsValue.str "oops")) true [JsValue.num 7]).store = [JsValue.num 7] ∧
    (∃ es items, (some (JsValue.arr [JsValue.num 5]) : Option JsValue) = some (JsValue.arr es) ∧
        reviveAll es = some items ∧ true = true ∧
        (importData (some (JsValue.arr [JsValue.num 5])) true []).store = items) :=
  ⟨(importData_spec none true [JsValue.num 7]).1 rfl,
    ((importData_spec (some (JsValue.str "oops")) true [JsValue.num 7]).2.1 rfl).1,
    (importData_spec (some (JsValue.arr [JsValue.num 5])) true []).2.2 rfl⟩

end CustomerApp
